import Mathlib

/-!
# Verification of the krtxds delta discovery push engine

A shallow embedding of `internal/kgateway/agentgatewaysyncer/krtxds/xds.go`:
the delta xDS protocol decision function (`shouldRespondDelta`), the
subscription-set update (`deltaWatchedResources`), the diff generator
(`CollectionGenerator.GenerateDeltas`), push-request merging
(`Merge` / `CopyMerge`), the send path (`sendDelta`, `pushDeltaXds`),
and the timing skeleton of the change debouncer (`debounce`).

Modelling conventions:
* Go `sets.String` (istio `sets.Set[string]`) is modelled as `Finset String`.
  A nil Go set behaves as the empty set for every operation performed on it
  by this code, so nil and empty are identified.
* Go maps with string keys are modelled as association lists
  (`List (String × _)`, unique keys) when the claim is about map contents,
  or as functions `String → Option _` for the per-proxy watched-resource map.
* Iteration order over a Go map/set is unspecified; where the code iterates
  a set to build output lists we iterate in sorted order (the claims under
  study are order-insensitive; the one place the code itself sorts,
  `sets.SortedList`, is modelled by `Finset.sort`).
* A Go nil-pointer dereference (a runtime panic) is modelled by `Option`:
  the function returns `none` exactly when the Go code would panic.
-/

namespace KrtXds

/-- `k8s.io/apimachinery/pkg/types.NamespacedName`. -/
structure NamespacedName where
  ns : String
  name : String
deriving DecidableEq, Repr

/-- `NamespacedName.String()`: `namespace + "/" + name`. -/
def NamespacedName.str (n : NamespacedName) : String :=
  n.ns ++ "/" ++ n.name

/-- `DiscoveryResource` (xds.go): a wire resource (we keep only its `Name`;
the opaque payload is irrelevant to every claim) plus the optional owning
gateway `ForGateway`. -/
structure DiscoveryResource where
  name : String
  forGateway : Option NamespacedName
deriving DecidableEq, Repr

/-- `DiscoveryResource.ResourceName()` (xds.go): the collection key is
`ForGateway.String() + "/" + Name` when `ForGateway` is set, else `Name`. -/
def DiscoveryResource.resourceName (d : DiscoveryResource) : String :=
  match d.forGateway with
  | some g => g.str ++ "/" ++ d.name
  | none => d.name

/-- `CollectionGenerator` (xds.go): a krt collection of `DiscoveryResource`,
modelled as the list of its elements (krt collections are keyed by
`ResourceName`, so keys are unique; we carry that as a hypothesis where
needed). `PerGateway` records whether the registration supplied a
scope-extraction function. -/
structure CollectionGenerator where
  perGateway : Bool
  col : List DiscoveryResource

/-- `Col.GetKey` (krt lookup by key = `ResourceName`). -/
def CollectionGenerator.getKey (e : CollectionGenerator) (k : String) :
    Option DiscoveryResource :=
  e.col.find? (fun d => d.resourceName = k)

/-- `model.WatchedResource` (istio), the per-session per-type subscription
record; `LastSendTime` is modelled as a natural-number timestamp. -/
structure WatchedResource where
  typeUrl : String
  resourceNames : Finset String
  wildcard : Bool
  nonceSent : String
  nonceAcked : String
  lastError : String
  alwaysRespond : Bool
  lastSendTime : Nat
deriving DecidableEq

/-- The per-proxy `WatchedResources` map (`Proxy.WatchedResources`),
modelled as a function from TypeUrl to the optional record. -/
def WatchedMap := String → Option WatchedResource

/-- `Proxy.UpdateWatchedResource` / direct map store: set the entry for
`ty` (the Go code stores when the callback returns non-nil, deletes on
nil; both are covered by storing an `Option`). -/
def updateWatched (m : WatchedMap) (ty : String) (v : Option WatchedResource) :
    WatchedMap :=
  fun t => if t = ty then v else m t

/-- `discovery.DeltaDiscoveryRequest` restricted to the fields this code
reads. `initialResourceVersions` keeps only the map's keys (the versions
are never read); `errorDetail` keeps only the message. -/
structure DeltaDiscoveryRequest where
  typeUrl : String
  responseNonce : String
  errorDetail : Option String
  resourceNamesSubscribe : List String
  resourceNamesUnsubscribe : List String
  initialResourceVersions : List String
deriving DecidableEq

/-- One step of `sets.InsertContains` driving the `changed` flag:
insert and record whether the element was new. -/
def insertStep (acc : Finset String × Bool) (r : String) : Finset String × Bool :=
  if r ∈ acc.1 then acc else (insert r acc.1, true)

/-- One step of `sets.DeleteContains` driving the `changed` flag:
delete and record whether the element was present. -/
def deleteStep (acc : Finset String × Bool) (r : String) : Finset String × Bool :=
  if r ∈ acc.1 then (acc.1.erase r, true) else acc

/-- `deltaWatchedResources` (xds.go): compute the new tracked name set,
the wildcard flag, and whether the set changed.  Mirrors the source:
insert every subscribed name, insert every initial-resource-version key,
delete every unsubscribed name; wildcard iff the resulting set contains
`"*"` (which is then removed from the set) or the subscribe list is
empty. -/
def deltaWatchedResources (existing : Option (Finset String))
    (request : DeltaDiscoveryRequest) : Finset String × Bool × Bool :=
  let res := existing.getD ∅
  let a1 := request.resourceNamesSubscribe.foldl insertStep (res, false)
  let a2 := request.initialResourceVersions.foldl insertStep a1
  let a3 := request.resourceNamesUnsubscribe.foldl deleteStep a2
  let wildcard := decide ("*" ∈ a3.1) || request.resourceNamesSubscribe.isEmpty
  ((a3.1).erase "*", wildcard, a3.2)

/-- istio `v3.AddressType` (the memory-sensitive WDS type whose wildcard
watches do not store resource names). -/
def addressType : String := "type.googleapis.com/istio.workload.Address"

/-- `shouldRespondDelta` (xds.go): the ack/nack decision.  The result is
`none` exactly when the Go code panics: when the request carries an error
detail and the session has no `WatchedResource` for its type, the
`UpdateWatchedResource` callback `wr.LastError = ...` dereferences the nil
`wr`.  Otherwise the result is `some (respond?, newWatchedMap)`. -/
def shouldRespondDelta (p : WatchedMap) (request : DeltaDiscoveryRequest) :
    Option (Bool × WatchedMap) :=
  match request.errorDetail with
  | some msg =>
    -- `con.proxy.UpdateWatchedResource(..., func(wr) { wr.LastError = msg; return wr })`
    match p request.typeUrl with
    | none => none    -- nil `wr` is dereferenced: runtime panic
    | some wr =>
      some (false, updateWatched p request.typeUrl (some { wr with lastError := msg }))
  | none =>
  match p request.typeUrl with
  | none =>
    -- first request (or reconnect) for this type: create the WatchedResource
    let dwr := deltaWatchedResources none request
    let skip := request.typeUrl = addressType ∧ dwr.2.1 = true
    let res := if skip then (∅ : Finset String) else dwr.1
    some (true, updateWatched p request.typeUrl (some
      { typeUrl := request.typeUrl
        resourceNames := res
        wildcard := dwr.2.1
        nonceSent := ""
        nonceAcked := ""
        lastError := ""
        alwaysRespond := false
        lastSendTime := 0 }))
  | some previousInfo =>
    if request.responseNonce ≠ "" ∧ request.responseNonce ≠ previousInfo.nonceSent then
      -- expired/stale nonce: ignore
      some (false, p)
    else
      let spontaneousReq := request.responseNonce = ""
      let dwr := deltaWatchedResources (some previousInfo.resourceNames) request
      let subChanged := dwr.2.2
      let alwaysRespond := previousInfo.alwaysRespond
      let wr' : WatchedResource :=
        { previousInfo with
          resourceNames := dwr.1
          lastError := if spontaneousReq then previousInfo.lastError else ""
          nonceAcked := if spontaneousReq then previousInfo.nonceAcked
                        else request.responseNonce
          alwaysRespond := false }
      let p' := updateWatched p request.typeUrl (some wr')
      if subChanged then some (true, p')
      else if alwaysRespond then some (true, p')
      else some (false, p')

/-- `PushRequest` (xds.go) restricted to the fields the claims touch.
`ConfigsUpdated` is a Go map `map[TypeUrl]sets.String`, possibly nil:
modelled as an optional association list with unique keys. -/
structure PushRequest where
  configsUpdated : Option (List (String × Finset String))
  isFromRequest : Bool
  pushVersion : String

/-- Reading `req.ConfigsUpdated[t]` in Go: a lookup in a possibly-nil map,
returning the nil (= empty) set when the map or the key is absent. -/
def lookupConfigs (m : Option (List (String × Finset String))) (t : String) :
    Finset String :=
  match m with
  | none => ∅
  | some l =>
    match l.find? (fun p => p.1 = t) with
    | some p => p.2
    | none => ∅

/-- `PushRequest.IsRequest()`. -/
def PushRequest.isRequest (r : PushRequest) : Bool := r.isFromRequest

/-- The scope filter applied in `GenerateDeltas`
(`if e.ForGateway != nil && *e.ForGateway != gw { skip }`):
a resource is visible to `gw` iff its `ForGateway` is unset or equals `gw`. -/
def visibleTo (gw : NamespacedName) (d : DiscoveryResource) : Bool :=
  match d.forGateway with
  | some g => g = gw
  | none => true

/-- The incremental-mode point lookup in `GenerateDeltas`:
`v := e.Col.GetKey(gw.String() + "/" + k)` followed by the visibility
check `if v != nil && v.ForGateway != nil && *v.ForGateway != gw { v = nil }`. -/
def lookupScoped (e : CollectionGenerator) (gw : NamespacedName) (n : String) :
    Option DiscoveryResource :=
  match e.getKey (gw.str ++ "/" ++ n) with
  | some v => if visibleTo gw v then some v else none
  | none => none

/-- The two branches of `CollectionGenerator.GenerateDeltas` (xds.go),
before the final empty-diff guard: compute the `res` and `deletes` lists.
Full mode lists the scope-filtered collection and subtracts it from the
tracked names (`sets.SortedList` of the remainder); incremental mode walks
the changed names of this type (a Go set; iterated here in sorted order,
which is one admissible iteration order) and sends each to `res` or
`deletes` according to the scoped lookup. -/
def generateLists (e : CollectionGenerator) (req : PushRequest)
    (w : WatchedResource) (gw : NamespacedName) :
    List DiscoveryResource × List String :=
  if req.isRequest then
    let res := e.col.filter (visibleTo gw)
    let toDeleted := res.foldl (fun acc r => acc.erase r.name) w.resourceNames
    (res, toDeleted.sort (· ≤ ·))
  else
    let k := lookupConfigs req.configsUpdated w.typeUrl
    let names := k.sort (· ≤ ·)
    (names.filterMap (lookupScoped e gw),
     names.filter (fun n => (lookupScoped e gw n).isNone))

/-- `CollectionGenerator.GenerateDeltas` (xds.go): the computed lists, or
`none` (the Go `nil, nil` no-op signal) when both are empty. -/
def CollectionGenerator.GenerateDeltas (e : CollectionGenerator)
    (req : PushRequest) (w : WatchedResource) (gw : NamespacedName) :
    Option (List DiscoveryResource × List String) :=
  if (generateLists e req w gw).1 = [] ∧ (generateLists e req w gw).2 = []
  then none else some (generateLists e req w gw)

/-- `discovery.DeltaDiscoveryResponse` restricted to the fields this code
sets. -/
structure DeltaDiscoveryResponse where
  typeUrl : String
  systemVersionInfo : String
  nonce : String
  resources : List DiscoveryResource
  removedResources : List String
deriving DecidableEq

/-- `pushDeltaXds` (xds.go) up to the transport write: `none` when nothing
is sent (missing WatchedResource, no registered generator for the type, or
the generator returned the `nil, nil` no-op signal), otherwise the response
handed to `con.sendDelta`.  `uuidSuffix` stands for the random component
of `nonce(pushVersion)`. -/
def pushDeltaXds (gens : String → Option CollectionGenerator)
    (req : PushRequest) (w : Option WatchedResource) (gw : NamespacedName)
    (uuidSuffix : String) : Option DeltaDiscoveryResponse :=
  match w with
  | none => none
  | some w =>
    match gens w.typeUrl with
    | none => none
    | some gen =>
      match gen.GenerateDeltas req w gw with
      | none => none
      | some (res, deletedRes) =>
        some { typeUrl := w.typeUrl
               systemVersionInfo := req.pushVersion
               nonce := req.pushVersion ++ uuidSuffix
               resources := res
               removedResources := deletedRes }

/-- Go map assignment with set-merge on collision
(`if e, f := pr.ConfigsUpdated[k]; f { e.Merge(v) } else { pr.ConfigsUpdated[k] = v }`). -/
def mergeEntry (m : List (String × Finset String)) (k : String)
    (v : Finset String) : List (String × Finset String) :=
  if m.any (fun p => p.1 = k) then
    m.map (fun p => if p.1 = k then (p.1, p.2 ∪ v) else p)
  else m ++ [(k, v)]

/-- Plain Go map assignment `m[k] = v` (overwrite on collision). -/
def setEntry (m : List (String × Finset String)) (k : String)
    (v : Finset String) : List (String × Finset String) :=
  if m.any (fun p => p.1 = k) then
    m.map (fun p => if p.1 = k then (p.1, v) else p)
  else m ++ [(k, v)]

/-- `PushRequest.Merge` (xds.go), for non-nil receivers (the nil-pointer
short-circuits return the other argument unchanged): if the receiver's map
is nil adopt the other's map, otherwise merge each of the other's entries
in with set union. -/
def PushRequest.Merge (pr other : PushRequest) : PushRequest :=
  match pr.configsUpdated with
  | none => { pr with configsUpdated := other.configsUpdated }
  | some m =>
    match other.configsUpdated with
    | none => pr
    | some l =>
      { pr with configsUpdated := (some
          (l.foldl (fun acc kv => mergeEntry acc kv.1 kv.2) m)) }

/-- `PushRequest.CopyMerge` (xds.go), for non-nil receivers: builds a fresh
`PushRequest` and copies first `pr`'s entries, then `other`'s entries, into
its map — a plain overwrite, not a set merge, on shared keys. -/
def PushRequest.CopyMerge (pr other : PushRequest) : PushRequest :=
  if pr.configsUpdated = none ∧ other.configsUpdated = none then
    { configsUpdated := none, isFromRequest := false, pushVersion := "" }
  else
    let base := (pr.configsUpdated.getD []).foldl
      (fun acc kv => setEntry acc kv.1 kv.2) []
    { configsUpdated := (some
        ((other.configsUpdated.getD []).foldl
          (fun acc kv => setEntry acc kv.1 kv.2) base))
      isFromRequest := false
      pushVersion := "" }

/-- istio `v3.DebugType`. -/
def debugType : String := "istio.io/debug"

/-- The TypeUrl prefix produced by `TypeName` (xds.go) for every registered
collection: `"type.googleapis.com/" + proto full name`. -/
def typeNamePfx : String := "type.googleapis.com/"

/-- Go `strings.HasPrefix`. -/
def goHasPfx (p s : String) : Bool := p.data.isPrefixOf s.data

/-- The zero `model.WatchedResource` created by `sendDelta` when the proxy
has no record for the response's type
(`wr = &model.WatchedResource{TypeUrl: res.TypeUrl}`). -/
def zeroWatched (ty : String) : WatchedResource :=
  { typeUrl := ty, resourceNames := ∅, wildcard := false, nonceSent := ""
    nonceAcked := "", lastError := "", alwaysRespond := false, lastSendTime := 0 }

/-- `Connection.sendDelta` (xds.go): attempt the transport write (its
success is the environment input `sendOk`); on success, and only for
non-debug types, record `NonceSent` and `LastSendTime` on the proxy's
WatchedResource for the response type; on failure (deadline-exceeded
included, which only additionally bumps a metric) leave the proxy
untouched.  Returns the new watched map and whether the write succeeded. -/
def sendDelta (p : WatchedMap) (res : DeltaDiscoveryResponse)
    (sendOk : Bool) (now : Nat) : WatchedMap × Bool :=
  if sendOk then
    if goHasPfx debugType res.typeUrl then (p, true)
    else
      let wr0 := (p res.typeUrl).getD (zeroWatched res.typeUrl)
      (updateWatched p res.typeUrl
        (some { wr0 with nonceSent := res.nonce, lastSendTime := now }), true)
  else (p, false)

/-- Timing skeleton of `debounce` (xds.go) under the event schedule of the
debounce-bound property: a single burst starting at time 0 with one event
every `h` time units (the property takes `h = DebounceAfter / 2`), pushes
completing immediately (`free` stays true), and an event that is
simultaneous with a timer fire being processed first (Go `select` picks
among ready channels arbitrarily; this is one admissible schedule).
Under that schedule, at a timer fire at time `t` the last event time is the
largest multiple of `h` at most `t`, so `quietTime = t % h` and
`eventDelay = t`; `pushWorker` flushes iff
`eventDelay ≥ DebounceMax ∨ quietTime ≥ DebounceAfter` and otherwise
re-arms the timer for `DebounceAfter - quietTime`.  The first timer is
armed for `DebounceAfter` by the burst's first event.  `fuel` bounds the
recursion; `debounceFlushTime` supplies enough fuel. -/
def debounceFlushAux (q h M : Nat) : Nat → Nat → Nat
  | 0, t => t
  | fuel+1, t =>
    if M ≤ t ∨ q ≤ t % h then t
    else debounceFlushAux q h M fuel (t + (q - t % h))

/-- The time of the first flush of the burst, measured from the first
event: the first timer fire is at `q = DebounceAfter`, and each
non-flushing fire re-arms as in `debounceFlushAux`. -/
def debounceFlushTime (q h M : Nat) : Nat := debounceFlushAux q h M M q

/-! ## Supporting lemmas -/

lemma insertStep_fst (acc : Finset String × Bool) (r : String) :
    (insertStep acc r).1 = insert r acc.1 := by
  unfold insertStep
  split
  · exact (Finset.insert_eq_self.mpr (by assumption)).symm
  · rfl

lemma deleteStep_fst (acc : Finset String × Bool) (r : String) :
    (deleteStep acc r).1 = acc.1.erase r := by
  unfold deleteStep
  split
  · rfl
  · exact (Finset.erase_eq_of_not_mem (by assumption)).symm

lemma foldl_insertStep (l : List String) (acc : Finset String × Bool) :
    (l.foldl insertStep acc).1 = acc.1 ∪ l.toFinset := by
  induction l generalizing acc with
  | nil => simp
  | cons r l ih =>
    rw [List.foldl_cons, ih, insertStep_fst, List.toFinset_cons,
      Finset.union_insert, Finset.insert_union]

lemma foldl_deleteStep (l : List String) (acc : Finset String × Bool) :
    (l.foldl deleteStep acc).1 = acc.1 \ l.toFinset := by
  induction l generalizing acc with
  | nil => simp
  | cons r l ih =>
    rw [List.foldl_cons, ih, deleteStep_fst, List.toFinset_cons,
      Finset.erase_eq, sdiff_sdiff]
    simp [Finset.insert_eq, Finset.sup_eq_union]

lemma foldl_erase_names (l : List DiscoveryResource) (s : Finset String) :
    l.foldl (fun acc r => acc.erase r.name) s = s \ (l.map (fun d => d.name)).toFinset := by
  induction l generalizing s with
  | nil => simp
  | cons r l ih =>
    rw [List.foldl_cons, ih, List.map_cons, List.toFinset_cons,
      Finset.erase_eq, sdiff_sdiff]
    simp [Finset.insert_eq, Finset.sup_eq_union]

/-- The tracked-name set computed by `deltaWatchedResources`:
(existing ∪ subscribe ∪ initial-versions) minus unsubscribe, minus `"*"`. -/
lemma dwr_fst (ex : Option (Finset String)) (req : DeltaDiscoveryRequest) :
    (deltaWatchedResources ex req).1 =
      (((ex.getD ∅ ∪ req.resourceNamesSubscribe.toFinset
          ∪ req.initialResourceVersions.toFinset)
        \ req.resourceNamesUnsubscribe.toFinset).erase "*") := by
  unfold deltaWatchedResources
  simp only [foldl_deleteStep, foldl_insertStep]

/-- The wildcard flag computed by `deltaWatchedResources`. -/
lemma dwr_wildcard (ex : Option (Finset String)) (req : DeltaDiscoveryRequest) :
    (deltaWatchedResources ex req).2.1 =
      (decide ("*" ∈ (ex.getD ∅ ∪ req.resourceNamesSubscribe.toFinset
            ∪ req.initialResourceVersions.toFinset)
          \ req.resourceNamesUnsubscribe.toFinset)
        || req.resourceNamesSubscribe.isEmpty) := by
  unfold deltaWatchedResources
  simp only [foldl_deleteStep, foldl_insertStep]

/-! ## Claim theorems -/

/-- C3: a request with no error detail, an existing WatchedResource for its
type, and a non-empty response nonce different from the last nonce sent for
that type produces no response and leaves the watched state unchanged —
so a non-empty ack nonce is accepted only when it equals the nonce of the
immediately preceding response for that type. -/
theorem staleNonceIgnored (p : WatchedMap) (req : DeltaDiscoveryRequest)
    (wr : WatchedResource)
    (he : req.errorDetail = none) (hw : p req.typeUrl = some wr)
    (hn : req.responseNonce ≠ "") (hm : req.responseNonce ≠ wr.nonceSent) :
    shouldRespondDelta p req = some (false, p) := by
  simp only [shouldRespondDelta, he, hw]
  rw [if_pos ⟨hn, hm⟩]

theorem staleNonceIgnored_witness :
    shouldRespondDelta
      (fun t => if t = "T" then some (zeroWatched "T") else none)
      ⟨"T", "N0", none, [], [], []⟩ =
      some (false, fun t => if t = "T" then some (zeroWatched "T") else none) :=
  staleNonceIgnored _ _ (zeroWatched "T") rfl (by decide) (by decide) (by decide)

/-- C5 (code bug): a request that carries an error detail for a type with no
existing WatchedResource makes `shouldRespondDelta` pass a nil
`*model.WatchedResource` to an update callback that dereferences it
(`wr.LastError = ...`), a runtime panic — modelled as `none` — instead of
recording the error and sending no response. -/
theorem errorDetailNoWatchPanics :
    shouldRespondDelta (fun _ => none)
      ⟨"T", "N1", some "rejected", [], [], []⟩ = none := rfl

/-- C6: a genuine ack (no error detail, existing WatchedResource, nonce
equal to the last sent nonce) whose subscribe/unsubscribe deltas leave the
tracked set unchanged is responded to exactly when the always-respond flag
was set, and the flag is cleared. -/
theorem ackAlwaysRespond (p : WatchedMap) (req : DeltaDiscoveryRequest)
    (wr : WatchedResource)
    (he : req.errorDetail = none) (hw : p req.typeUrl = some wr)
    (hn : req.responseNonce ≠ "") (hm : req.responseNonce = wr.nonceSent)
    (hsub : (deltaWatchedResources (some wr.resourceNames) req).2.2 = false) :
    (shouldRespondDelta p req).map Prod.fst = some wr.alwaysRespond ∧
    (shouldRespondDelta p req).bind
        (fun x => (x.2 req.typeUrl).map (fun w => w.alwaysRespond)) = some false := by
  simp only [shouldRespondDelta, he, hw]
  rw [if_neg (by simp [hm])]
  simp only [hsub, Bool.false_eq_true, if_false]
  cases halw : wr.alwaysRespond <;> simp [halw, updateWatched]

/-- Session state for the C6 witness: one WatchedResource for `"T"` with
`NonceSent = "N1"` and the always-respond flag set. -/
def p6 : WatchedMap :=
  fun t => if t = "T"
    then some { zeroWatched "T" with nonceSent := "N1", alwaysRespond := true }
    else none

/-- The C6 witness request: a bare ack of nonce `"N1"` for `"T"`. -/
def req6 : DeltaDiscoveryRequest := ⟨"T", "N1", none, [], [], []⟩

theorem ackAlwaysRespond_witness :
    (shouldRespondDelta p6 req6).map Prod.fst =
      some ({ zeroWatched "T" with nonceSent := "N1", alwaysRespond := true }).alwaysRespond ∧
    (shouldRespondDelta p6 req6).bind
        (fun x => (x.2 req6.typeUrl).map (fun w => w.alwaysRespond)) = some false :=
  ackAlwaysRespond p6 req6 { zeroWatched "T" with nonceSent := "N1", alwaysRespond := true }
    rfl (by decide) (by decide) (by decide) (by decide)

/-- C4 counterexample: the request subscribing to `"*"` while also
unsubscribing `"*"` (the documented idiom for "subscribe to nothing")
explicitly subscribes to the wildcard name, yet the newly created
WatchedResource has `wildcard = false`. -/
theorem wildcardStarUnsubCounterexample :
    (⟨"T", "", none, ["*"], ["*"], []⟩ : DeltaDiscoveryRequest).resourceNamesSubscribe
        = ["*"] ∧
    ((shouldRespondDelta (fun _ => none) ⟨"T", "", none, ["*"], ["*"], []⟩).bind
      (fun x => (x.2 "T").map (fun w => w.wildcard))) = some false := by
  decide

/-- C4 (amended): for a request with no error detail and no prior
WatchedResource for its type, the created WatchedResource's wildcard flag
is true iff `"*"` survives the subscription arithmetic — it occurs in the
subscribe list or the initial-resource-versions keys and is not
unsubscribed — or the subscribe list is empty. -/
theorem wildcardNewWatch (p : WatchedMap) (req : DeltaDiscoveryRequest)
    (he : req.errorDetail = none) (hw : p req.typeUrl = none) :
    (shouldRespondDelta p req).map Prod.fst = some true ∧
    (shouldRespondDelta p req).bind
        (fun x => (x.2 req.typeUrl).map (fun w => w.wildcard)) =
      some (decide ((("*" ∈ req.resourceNamesSubscribe
            ∨ "*" ∈ req.initialResourceVersions)
          ∧ "*" ∉ req.resourceNamesUnsubscribe)
        ∨ req.resourceNamesSubscribe = [])) := by
  simp only [shouldRespondDelta, he, hw]
  refine ⟨rfl, ?_⟩
  rw [Option.some_bind]
  simp only [updateWatched, eq_self_iff_true, if_true, Option.map_some, Option.map_some']
  rw [dwr_wildcard]
  congr 1
  rw [Bool.eq_iff_iff]
  simp [List.isEmpty_iff, Finset.mem_sdiff, Finset.mem_union, List.mem_toFinset]

/-- The C4-amended witness request: subscribe `["a"]`, initial-resource
version for `"*"`, nothing unsubscribed. -/
def req4 : DeltaDiscoveryRequest := ⟨"T", "", none, ["a"], [], ["*"]⟩

theorem wildcardNewWatch_witness :
    (shouldRespondDelta (fun _ => none) req4).map Prod.fst = some true ∧
    (shouldRespondDelta (fun _ => none) req4).bind
        (fun x => (x.2 req4.typeUrl).map (fun w => w.wildcard)) =
      some (decide ((("*" ∈ req4.resourceNamesSubscribe
            ∨ "*" ∈ req4.initialResourceVersions)
          ∧ "*" ∉ req4.resourceNamesUnsubscribe)
        ∨ req4.resourceNamesSubscribe = [])) :=
  wildcardNewWatch (fun _ => none) req4 rfl rfl

/-- C1: in full (request-triggered) mode, a non-no-op `GenerateDeltas`
returns as `added` exactly the resources of the collection visible to the
requesting gateway (ForGateway unset or equal to `gw`) and as `removed` the
tracked names that do not occur among the added resources, sorted. -/
theorem fullModeDiff (e : CollectionGenerator) (req : PushRequest)
    (w : WatchedResource) (gw : NamespacedName)
    (added : List DiscoveryResource) (removed : List String)
    (hreq : req.isRequest = true)
    (hgen : e.GenerateDeltas req w gw = some (added, removed)) :
    added = e.col.filter (visibleTo gw) ∧
    removed = (w.resourceNames
        \ (added.map (fun d => d.name)).toFinset).sort (· ≤ ·) := by
  have h1 : generateLists e req w gw = (added, removed) := by
    unfold CollectionGenerator.GenerateDeltas at hgen
    split at hgen
    · exact absurd hgen (by simp)
    · exact Option.some.inj hgen
  unfold generateLists at h1
  rw [if_pos hreq] at h1
  injection h1 with ha hr
  subst ha
  subst hr
  exact ⟨rfl, by rw [foldl_erase_names]⟩

/-- The gateway used by concrete witnesses. -/
def gwW : NamespacedName := ⟨"ns", "gw"⟩

/-- A one-resource per-gateway collection used by concrete witnesses. -/
def eW : CollectionGenerator := ⟨true, [⟨"a", some gwW⟩]⟩

theorem fullModeDiff_witness :
    eW.GenerateDeltas ⟨none, true, "v"⟩ (zeroWatched "T") gwW =
      some ([⟨"a", some gwW⟩], []) ∧
    ([⟨"a", some gwW⟩] : List DiscoveryResource) = eW.col.filter (visibleTo gwW) ∧
    ([] : List String) = ((zeroWatched "T").resourceNames
        \ (([⟨"a", some gwW⟩] : List DiscoveryResource).map
            (fun d => d.name)).toFinset).sort (· ≤ ·) := by
  have hgen : eW.GenerateDeltas ⟨none, true, "v"⟩ (zeroWatched "T") gwW =
      some ([⟨"a", some gwW⟩], []) := by
    unfold CollectionGenerator.GenerateDeltas generateLists
    simp [PushRequest.isRequest, eW, gwW, visibleTo, zeroWatched, Finset.sort_empty]
  exact ⟨hgen, fullModeDiff eW ⟨none, true, "v"⟩ (zeroWatched "T") gwW _ _ rfl hgen⟩

/-- In a per-gateway collection (every resource carries a ForGateway), a
successful scoped lookup of name `n` returns a collection element whose
wire name is exactly `n`. -/
lemma lookupScoped_name (e : CollectionGenerator) (gw : NamespacedName)
    (n : String) (d : DiscoveryResource)
    (hcol : ∀ x ∈ e.col, x.forGateway.isSome)
    (h : lookupScoped e gw n = some d) : d ∈ e.col ∧ d.name = n := by
  unfold lookupScoped at h
  cases hk : e.getKey (gw.str ++ "/" ++ n) with
  | none => rw [hk] at h; exact absurd h (by simp)
  | some v =>
    rw [hk] at h
    dsimp only at h
    by_cases hv : visibleTo gw v = true
    · rw [if_pos hv] at h
      obtain rfl : v = d := Option.some.inj h
      unfold CollectionGenerator.getKey at hk
      have hmem := List.mem_of_find?_eq_some hk
      have hpred := List.find?_some hk
      simp only [decide_eq_true_eq] at hpred
      have hres : v.resourceName = gw.str ++ "/" ++ n := hpred
      obtain ⟨g, hgEq⟩ := Option.isSome_iff_exists.mp (hcol v hmem)
      have hggw : g = gw := by
        unfold visibleTo at hv
        rw [hgEq] at hv
        exact of_decide_eq_true hv
      subst hggw
      unfold DiscoveryResource.resourceName at hres
      rw [hgEq] at hres
      refine ⟨hmem, ?_⟩
      have hd := congrArg String.data hres
      simp only [String.data_append, List.append_assoc] at hd
      exact String.ext (List.append_cancel_left (List.append_cancel_left hd))
    · rw [if_neg hv] at h
      exact absurd h (by simp)

/-- An unscoped collection (`Collection` registration, `extract = nil`):
one resource named `"a"` with `ForGateway` unset, keyed by its bare name. -/
def eUnscoped : CollectionGenerator := ⟨false, [⟨"a", none⟩]⟩

/-- The incremental batch for the C2 counterexample: name `"a"` of type
`"T"` changed. -/
def reqUnscoped : PushRequest := ⟨some [("T", {"a"})], false, ""⟩

/-- C2 counterexample: in an unscoped collection (registered without a
scope-extraction function, so `ForGateway` is unset and the collection key
is the bare name), a changed name whose resource exists and is visible to
the requesting gateway is nevertheless reported as removed: the
incremental lookup `GetKey(gw.String() + "/" + name)` can never match the
bare-name key. -/
theorem incModeUnscopedCounterexample :
    (⟨"a", none⟩ : DiscoveryResource) ∈ eUnscoped.col ∧
    visibleTo gwW ⟨"a", none⟩ = true ∧
    "a" ∈ lookupConfigs reqUnscoped.configsUpdated (zeroWatched "T").typeUrl ∧
    eUnscoped.GenerateDeltas reqUnscoped (zeroWatched "T") gwW = some ([], ["a"]) := by
  have hgl : generateLists eUnscoped reqUnscoped (zeroWatched "T") gwW = ([], ["a"]) := by
    unfold generateLists
    rw [if_neg (by decide)]
    have hc : lookupConfigs reqUnscoped.configsUpdated (zeroWatched "T").typeUrl
        = {"a"} := by decide
    simp only [hc, Finset.sort_singleton]
    decide
  refine ⟨by decide, by decide, by decide, ?_⟩
  unfold CollectionGenerator.GenerateDeltas
  rw [hgl]
  decide

/-- C2 (amended): in incremental (scheduled-push) mode over a per-gateway
collection (every resource carries `ForGateway`, the invariant of
registrations that supply a scope-extraction function), every changed name
of the watched type lands in exactly one of the outputs — among the added
resources iff its scoped lookup succeeds, in the removed list iff it fails
— and no other name occurs in either output. -/
theorem incModeDiff (e : CollectionGenerator) (req : PushRequest)
    (w : WatchedResource) (gw : NamespacedName)
    (hreq : req.isRequest = false)
    (hcol : ∀ x ∈ e.col, x.forGateway.isSome) :
    (∀ n ∈ lookupConfigs req.configsUpdated w.typeUrl,
      ((∃ d ∈ ((e.GenerateDeltas req w gw).getD ([], [])).1, d.name = n) ↔
        (lookupScoped e gw n).isSome = true) ∧
      (n ∈ ((e.GenerateDeltas req w gw).getD ([], [])).2 ↔
        (lookupScoped e gw n).isSome = false)) ∧
    (∀ n, n ∉ lookupConfigs req.configsUpdated w.typeUrl →
      (∀ d ∈ ((e.GenerateDeltas req w gw).getD ([], [])).1, d.name ≠ n) ∧
      n ∉ ((e.GenerateDeltas req w gw).getD ([], [])).2) := by
  have hout : (e.GenerateDeltas req w gw).getD ([], []) = generateLists e req w gw := by
    unfold CollectionGenerator.GenerateDeltas
    split
    · rename_i hcond
      simp only [Option.getD_none]
      exact Prod.ext hcond.1.symm hcond.2.symm
    · rfl
  rw [hout]
  unfold generateLists
  rw [if_neg (by simp [hreq])]
  constructor
  · intro n hn
    have hn' : n ∈ (lookupConfigs req.configsUpdated w.typeUrl).sort (· ≤ ·) :=
      (Finset.mem_sort _).mpr hn
    constructor
    · constructor
      · rintro ⟨d, hd, hdn⟩
        obtain ⟨m, hm, hlm⟩ := List.mem_filterMap.mp hd
        have hdm := (lookupScoped_name e gw m d hcol hlm).2
        have hmn : m = n := by rw [← hdm, hdn]
        rw [← hmn]
        simp [hlm]
      · intro hsome
        obtain ⟨d, hd⟩ := Option.isSome_iff_exists.mp hsome
        exact ⟨d, List.mem_filterMap.mpr ⟨n, hn', hd⟩,
          (lookupScoped_name e gw n d hcol hd).2⟩
    · constructor
      · intro hmem
        have hp := (List.mem_filter.mp hmem).2
        simp only [Option.isNone_iff_eq_none, decide_eq_true_eq] at hp
        simp [hp]
      · intro hfalse
        refine List.mem_filter.mpr ⟨hn', ?_⟩
        simp only [Option.isNone_iff_eq_none, decide_eq_true_eq]
        exact Option.not_isSome_iff_eq_none.mp (by simp [hfalse])
  · intro n hn
    constructor
    · intro d hd hdn
      obtain ⟨m, hm, hlm⟩ := List.mem_filterMap.mp hd
      have hdm := (lookupScoped_name e gw m d hcol hlm).2
      have hmn : m = n := by rw [← hdm, hdn]
      exact hn ((Finset.mem_sort _).mp (hmn ▸ hm))
    · intro hmem
      exact hn ((Finset.mem_sort _).mp (List.mem_filter.mp hmem).1)

/-- The incremental-mode witness batch: names `x` and `y` changed for
type `"T"`. -/
def reqInc : PushRequest := ⟨some [("T", {"x", "y"})], false, ""⟩

theorem incModeDiff_witness :
    (∀ n ∈ lookupConfigs reqInc.configsUpdated (zeroWatched "T").typeUrl,
      ((∃ d ∈ ((eW.GenerateDeltas reqInc (zeroWatched "T") gwW).getD ([], [])).1,
          d.name = n) ↔ (lookupScoped eW gwW n).isSome = true) ∧
      (n ∈ ((eW.GenerateDeltas reqInc (zeroWatched "T") gwW).getD ([], [])).2 ↔
        (lookupScoped eW gwW n).isSome = false)) ∧
    (∀ n, n ∉ lookupConfigs reqInc.configsUpdated (zeroWatched "T").typeUrl →
      (∀ d ∈ ((eW.GenerateDeltas reqInc (zeroWatched "T") gwW).getD ([], [])).1,
        d.name ≠ n) ∧
      n ∉ ((eW.GenerateDeltas reqInc (zeroWatched "T") gwW).getD ([], [])).2) :=
  incModeDiff eW reqInc (zeroWatched "T") gwW rfl (by decide)

/-- C7: when the computed added and removed lists are both empty (in either
mode), `GenerateDeltas` returns the no-op signal and `pushDeltaXds` sends
nothing on the connection. -/
theorem emptyDiffNoSend (e : CollectionGenerator) (req : PushRequest)
    (w : WatchedResource) (gw : NamespacedName)
    (gens : String → Option CollectionGenerator) (uuidSuffix : String)
    (hgens : gens w.typeUrl = some e)
    (hempty : generateLists e req w gw = ([], [])) :
    e.GenerateDeltas req w gw = none ∧
    pushDeltaXds gens req (some w) gw uuidSuffix = none := by
  have h1 : e.GenerateDeltas req w gw = none := by
    unfold CollectionGenerator.GenerateDeltas
    rw [hempty]
    simp
  refine ⟨h1, ?_⟩
  simp only [pushDeltaXds, hgens, h1]

/-- The C7 witness: an empty collection registered for type `"T"`. -/
def eEmpty : CollectionGenerator := ⟨true, []⟩

theorem emptyDiffNoSend_witness :
    generateLists eEmpty ⟨none, true, "v"⟩ (zeroWatched "T") gwW = ([], []) ∧
    (eEmpty.GenerateDeltas ⟨none, true, "v"⟩ (zeroWatched "T") gwW = none ∧
      pushDeltaXds (fun t => if t = "T" then some eEmpty else none)
        ⟨none, true, "v"⟩ (some (zeroWatched "T")) gwW "u" = none) := by
  have hempty : generateLists eEmpty ⟨none, true, "v"⟩ (zeroWatched "T") gwW
      = ([], []) := by
    unfold generateLists
    simp [PushRequest.isRequest, eEmpty, zeroWatched, Finset.sort_empty]
  exact ⟨hempty,
    emptyDiffNoSend eEmpty ⟨none, true, "v"⟩ (zeroWatched "T") gwW
      (fun t => if t = "T" then some eEmpty else none) "u" (by simp [zeroWatched]) hempty⟩

/-- Structural-recursion view of association-list lookup (first match
wins, default empty), used to reason about `Merge`/`CopyMerge`. -/
def lookupL : List (String × Finset String) → String → Finset String
  | [], _ => ∅
  | p :: l, t => if p.1 = t then p.2 else lookupL l t

lemma lookupL_cons (a : String × Finset String)
    (l : List (String × Finset String)) (t : String) :
    lookupL (a :: l) t = if a.1 = t then a.2 else lookupL l t := rfl

lemma lookupConfigs_some (l : List (String × Finset String)) (t : String) :
    lookupConfigs (some l) t = lookupL l t := by
  induction l with
  | nil => rfl
  | cons a l ih =>
    unfold lookupConfigs at ih ⊢
    dsimp only
    rw [List.find?_cons, lookupL_cons]
    by_cases ha : a.1 = t
    · simp [ha]
    · rw [decide_eq_false ha]
      dsimp only
      rw [if_neg ha]
      exact ih

lemma lookupL_not_mem (l : List (String × Finset String)) (t : String)
    (h : t ∉ l.map Prod.fst) : lookupL l t = ∅ := by
  induction l with
  | nil => rfl
  | cons a l ih =>
    rw [lookupL_cons, if_neg (fun ha => h (by simp [ha]))]
    exact ih (fun hx => h (by simp [hx]))

lemma lookupL_map_ne (m : List (String × Finset String)) (k t : String)
    (v : Finset String) (hkt : k ≠ t) :
    lookupL (m.map (fun p => if p.1 = k then (p.1, p.2 ∪ v) else p)) t
      = lookupL m t := by
  induction m with
  | nil => rfl
  | cons a m ih =>
    simp only [List.map_cons, lookupL_cons]
    by_cases hak : a.1 = k
    · rw [if_pos hak]
      dsimp only
      rw [if_neg (hak.symm ▸ hkt : ¬ a.1 = t), if_neg (hak.symm ▸ hkt : ¬ a.1 = t)]
      exact ih
    · rw [if_neg hak]
      by_cases hat : a.1 = t
      · rw [if_pos hat, if_pos hat]
      · rw [if_neg hat, if_neg hat]
        exact ih

lemma lookupL_map_eq (m : List (String × Finset String)) (k : String)
    (v : Finset String) (hmem : ∃ p ∈ m, p.1 = k) :
    lookupL (m.map (fun p => if p.1 = k then (p.1, p.2 ∪ v) else p)) k
      = lookupL m k ∪ v := by
  induction m with
  | nil => simp at hmem
  | cons a m ih =>
    simp only [List.map_cons, lookupL_cons]
    by_cases hak : a.1 = k
    · rw [if_pos hak]
      dsimp only
      rw [if_pos hak, if_pos hak]
    · rw [if_neg hak, if_neg hak, if_neg hak]
      refine ih ?_
      rcases hmem with ⟨p, hp, hpk⟩
      rcases List.mem_cons.mp hp with rfl | hp'
      · exact absurd hpk hak
      · exact ⟨p, hp', hpk⟩

lemma lookupL_append_new (m : List (String × Finset String)) (k t : String)
    (v : Finset String) (hnew : ∀ p ∈ m, p.1 ≠ k) :
    lookupL (m ++ [(k, v)]) t =
      if k = t then lookupL m t ∪ v else lookupL m t := by
  induction m with
  | nil =>
    by_cases hkt : k = t <;> simp [lookupL, hkt]
  | cons a m ih =>
    simp only [List.cons_append, lookupL_cons]
    by_cases hat : a.1 = t
    · have hkt : ¬ (k = t) := fun hkt =>
        hnew a (List.mem_cons_self a m) (by rw [hat, hkt])
      rw [if_pos hat, if_neg hkt, if_pos hat]
    · rw [if_neg hat, if_neg hat,
        ih (fun p hp => hnew p (List.mem_cons_of_mem a hp))]

/-- Lookup after a single merge-assignment `mergeEntry m k v`: the entry at
`k` gains `∪ v` (an absent key behaves as the empty set), other entries are
untouched. -/
lemma lookupL_mergeEntry (m : List (String × Finset String)) (k t : String)
    (v : Finset String) :
    lookupL (mergeEntry m k v) t =
      if k = t then lookupL m t ∪ v else lookupL m t := by
  unfold mergeEntry
  by_cases hk : m.any (fun p => p.1 = k) = true
  · rw [if_pos hk]
    by_cases hkt : k = t
    · subst hkt
      rw [if_pos rfl]
      refine lookupL_map_eq m k v ?_
      rcases List.any_eq_true.mp hk with ⟨p, hp, hpk⟩
      exact ⟨p, hp, of_decide_eq_true hpk⟩
    · rw [if_neg hkt]
      exact lookupL_map_ne m k t v hkt
  · rw [if_neg hk]
    refine lookupL_append_new m k t v ?_
    intro p hp hpk
    exact hk (List.any_eq_true.mpr ⟨p, hp, decide_eq_true hpk⟩)

/-- Lookup after folding a list of merge-assignments whose keys are
pairwise distinct (a Go map's entries): set union, entry by entry. -/
lemma lookupL_foldl_mergeEntry (l : List (String × Finset String))
    (m : List (String × Finset String)) (t : String)
    (hl : (l.map Prod.fst).Nodup) :
    lookupL (l.foldl (fun acc kv => mergeEntry acc kv.1 kv.2) m) t =
      lookupL m t ∪ lookupL l t := by
  induction l generalizing m with
  | nil => simp [lookupL]
  | cons a l ih =>
    have h0 : a.1 ∉ (l.map Prod.fst) ∧ (l.map Prod.fst).Nodup := by
      rw [List.map_cons, List.nodup_cons] at hl
      exact hl
    simp only [List.foldl_cons, lookupL_cons]
    rw [ih (mergeEntry m a.1 a.2) h0.2, lookupL_mergeEntry]
    by_cases hat : a.1 = t
    · rw [if_pos hat, if_pos hat, lookupL_not_mem l t (hat ▸ h0.1)]
      simp [Finset.union_assoc]
    · rw [if_neg hat, if_neg hat]

/-- `Merge` computes, for every type, the set union of the two batches'
changed-name sets (keys of a Go map are pairwise distinct, hence the
`Nodup` hypothesis on `other`'s entries). -/
lemma Merge_lookup (a b : PushRequest) (t : String)
    (hb : ((b.configsUpdated.getD []).map Prod.fst).Nodup) :
    lookupConfigs (a.Merge b).configsUpdated t =
      lookupConfigs a.configsUpdated t ∪ lookupConfigs b.configsUpdated t := by
  unfold PushRequest.Merge
  cases ha : a.configsUpdated with
  | none => cases hb' : b.configsUpdated <;> simp [lookupConfigs]
  | some m =>
    cases hb' : b.configsUpdated with
    | none => simp [ha, lookupConfigs]
    | some l =>
      rw [hb'] at hb
      simp only [Option.getD_some] at hb
      simp only [lookupConfigs_some]
      exact lookupL_foldl_mergeEntry l m t hb

/-- C8 (code bug): `Merge` unions the changed-name sets of the two batches,
but `CopyMerge` of the same two batches overwrites the shared type's set
with the second batch's names, dropping `"x"`. -/
theorem copyMergeDropsNames :
    lookupConfigs ((⟨some [("T", {"x"})], false, ""⟩ : PushRequest).Merge
        ⟨some [("T", {"y"})], false, ""⟩).configsUpdated "T" = {"x", "y"} ∧
    lookupConfigs ((⟨some [("T", {"x"})], false, ""⟩ : PushRequest).CopyMerge
        ⟨some [("T", {"y"})], false, ""⟩).configsUpdated "T" = {"y"} ∧
    ({"y"} : Finset String) ≠ {"x", "y"} := by
  refine ⟨?_, by decide, by decide⟩
  rw [Merge_lookup _ _ _ (by decide)]
  decide

/-- Upper bound for the debounce recursion: starting below `M + q`, every
fire either flushes below `M + q` or re-arms by at most `q`. -/
lemma debounceFlushAux_ub (q h M : Nat) :
    ∀ fuel t, t < M + q → debounceFlushAux q h M fuel t < M + q := by
  intro fuel
  induction fuel with
  | zero => intro t ht; simpa [debounceFlushAux] using ht
  | succ n ih =>
    intro t ht
    unfold debounceFlushAux
    split
    · exact ht
    · rename_i hcond
      push_neg at hcond
      exact ih _ (by omega)

/-- Lower bound / sufficiency of fuel: each re-arm strictly advances time,
and a fire below `M` never flushes (the quiet-time disjunct cannot fire
while `h ≤ q`). -/
lemma debounceFlushAux_lb (q h M : Nat) (hq : q = 2 * h) (hh : 1 ≤ h) :
    ∀ fuel t, M ≤ t + fuel → M ≤ debounceFlushAux q h M fuel t := by
  intro fuel
  induction fuel with
  | zero => intro t ht; simpa [debounceFlushAux] using ht
  | succ n ih =>
    intro t ht
    unfold debounceFlushAux
    split
    · rename_i hcond
      rcases hcond with hM | hquiet
      · exact hM
      · have := Nat.mod_lt t (show 0 < h by omega)
        omega
    · rename_i hcond
      push_neg at hcond
      refine ih _ ?_
      have := Nat.mod_lt t (show 0 < h by omega)
      omega

/-- C9 counterexample: with `DebounceAfter = 2`, events every `1`, and
`DebounceMax = 3`, the flush happens at time `4`, strictly after
`DebounceMax` — the deadline is only checked at timer fires. -/
theorem debounceFlushAfterMax :
    debounceFlushTime 2 1 3 = 4 ∧ 3 < 4 := by decide

/-- C9 (amended): for a continuous burst with one event every
`h = DebounceAfter / 2`, the flush happens at or after `DebounceMax` and
strictly before `DebounceMax + DebounceAfter` (not necessarily by
`DebounceMax` itself). -/
theorem debounceFlushBounds (q h M : Nat)
    (hq : q = 2 * h) (hh : 1 ≤ h) (hM : 1 ≤ M) :
    M ≤ debounceFlushTime q h M ∧ debounceFlushTime q h M < M + q := by
  constructor
  · exact debounceFlushAux_lb q h M hq hh M q (by omega)
  · exact debounceFlushAux_ub q h M M q (by omega)

theorem debounceFlushBounds_witness :
    3 ≤ debounceFlushTime 2 1 3 ∧ debounceFlushTime 2 1 3 < 3 + 2 :=
  debounceFlushBounds 2 1 3 rfl (by decide) (by decide)

/-- A registered TypeUrl (which always begins with `type.googleapis.com/`)
never has the istio debug-type marker. -/
lemma typeName_not_debug (s : String)
    (h : goHasPfx typeNamePfx s = true) : goHasPfx debugType s = false := by
  unfold goHasPfx at h ⊢
  rw [List.isPrefixOf_iff_prefix] at h
  rw [Bool.eq_false_iff]
  intro hd
  rw [List.isPrefixOf_iff_prefix] at hd
  rcases List.prefix_or_prefix_of_prefix hd h with h1 | h2
  · exact (by decide : ¬ (debugType.data <+: typeNamePfx.data)) h1
  · exact (by decide : ¬ (typeNamePfx.data <+: debugType.data)) h2

/-- C10: for any response whose type is a registered collection type
(`type.googleapis.com/...` prefix), `sendDelta` records the sent nonce and
send time on the proxy's WatchedResource for that type exactly when the
transport write succeeds, touches no other type, and leaves the proxy
completely unchanged when the write fails (deadline-exceeded included) —
so the previously sent nonce stays the one acks are matched against. -/
theorem sendDeltaUpdatesIffSuccess (p : WatchedMap)
    (res : DeltaDiscoveryResponse) (sendOk : Bool) (now : Nat)
    (hty : goHasPfx typeNamePfx res.typeUrl = true) :
    (sendOk = true →
      (sendDelta p res sendOk now).1 res.typeUrl =
        some { (p res.typeUrl).getD (zeroWatched res.typeUrl) with
               nonceSent := res.nonce, lastSendTime := now } ∧
      ∀ t, t ≠ res.typeUrl → (sendDelta p res sendOk now).1 t = p t) ∧
    (sendOk = false → (sendDelta p res sendOk now).1 = p) ∧
    (sendDelta p res sendOk now).2 = sendOk := by
  have hdbg := typeName_not_debug res.typeUrl hty
  unfold sendDelta
  cases sendOk with
  | false => simp
  | true =>
    rw [if_pos rfl, hdbg]
    simp only [Bool.false_eq_true, if_false]
    refine ⟨fun _ => ⟨by simp [updateWatched], fun t ht => by simp [updateWatched, ht]⟩,
      by simp, by simp⟩

/-- The C10 witness response: a registered type, nonce `"N1"`. -/
def resW : DeltaDiscoveryResponse :=
  ⟨"type.googleapis.com/demo.Thing", "v", "N1", [], []⟩

theorem sendDeltaUpdatesIffSuccess_witness :
    (true = true →
      (sendDelta (fun _ => none) resW true 5).1 resW.typeUrl =
        some { ((fun _ => none : WatchedMap) resW.typeUrl).getD
                 (zeroWatched resW.typeUrl) with
               nonceSent := resW.nonce, lastSendTime := 5 } ∧
      ∀ t, t ≠ resW.typeUrl → (sendDelta (fun _ => none) resW true 5).1 t =
        (fun _ => none : WatchedMap) t) ∧
    (true = false → (sendDelta (fun _ => none) resW true 5).1 =
      (fun _ => none : WatchedMap)) ∧
    (sendDelta (fun _ => none) resW true 5).2 = true :=
  sendDeltaUpdatesIffSuccess (fun _ => none) resW true 5 (by decide)

end KrtXds
